import Mathlib

/-!
Verification of the command-tree dispatcher and lifecycle orchestrator of
`mopidy/commands.py`.

The development is a shallow embedding of the module.  External collaborators
(the glib main loop, the pykka actor layer reached through `Audio.start`,
`backend_class.start`, `Core.start`, `frontend_class.start`,
`process.stop_actors_by_class`, `process.stop_remaining_actors`, and the
logging module) are modelled as an environment that decides, for each call,
whether it returns normally or raises, and every such call is recorded as an
event in a trace.  Python exceptions are values of an explicit exception type
and `try/except/finally` is translated to explicit sequencing on
`trace × optional-exception` pairs.
-/

namespace Mopidy

/-- Exceptions that can cross the orchestrator's call boundaries.  The three
component error classes are the ones named in `RootCommand.run`'s `except`
clause (`exceptions.BackendError`, `exceptions.FrontendError`,
`exceptions.MixerError`); `keyboardInterrupt` models `KeyboardInterrupt`, and
`otherError` stands for any other Python exception an external call might
raise. -/
inductive Exc where
  | backendError (msg : String)
  | frontendError (msg : String)
  | mixerError (msg : String)
  | keyboardInterrupt
  | otherError (msg : String)
deriving DecidableEq, Repr

/-- One observable external call made by `RootCommand.run` and its helpers.
Each constructor corresponds to exactly one call site in the source. -/
inductive Ev where
  | logStartingAudio
  | logStartingBackends (names : List String)
  | logBackendInitFailed (name msg : String)
  | logStartingCore
  | logStartingFrontends (names : List String)
  | logFrontendInitFailed (name msg : String)
  | logInitExiting
  | logInterruptedExiting
  | logStoppingFrontends
  | logStoppingCore
  | logStoppingBackends
  | logStoppingAudio
  | startAudio
  | startBackend (name : String)
  | startCore
  | startFrontend (name : String)
  | loopRun
  | loopQuit
  | stopActorsByClass (name : String)
  | stopRemainingActors
deriving DecidableEq, Repr

/-- Behaviour of the external collaborators: for each call, `none` means the
call returns normally and `some e` means it raises `e`. -/
structure Env where
  audioStart : Option Exc
  backendStart : String → Option Exc
  coreStart : Option Exc
  frontendStart : String → Option Exc
  loopRunExc : Option Exc
  loopQuitExc : Option Exc
  stopActors : String → Option Exc
  stopRemaining : Option Exc

/-- A computation step: the trace of calls it made, and the exception it
raised (if any). -/
abbrev Step := List Ev × Option Exc

/-- Sequential composition: run `a`; if it raised, `b` never runs. -/
def andThen (a b : Step) : Step :=
  match a with
  | (t, none) => (t ++ b.1, b.2)
  | (t, some e) => (t, some e)

/-- `RootCommand.start_audio`: log, then `Audio.start(config=config).proxy()`. -/
def start_audio (env : Env) : Step :=
  ([.logStartingAudio, .startAudio], env.audioStart)

/-- The `for backend_class in backend_classes` loop of
`RootCommand.start_backends`: start each backend in registration order; on
`BackendError` log which backend failed and re-raise; any other exception
propagates unlogged; later backends are not attempted after a raise. -/
def startBackendsLoop (env : Env) : List String → Step
  | [] => ([], none)
  | b :: rest =>
    match env.backendStart b with
    | none =>
      let s := startBackendsLoop env rest
      (.startBackend b :: s.1, s.2)
    | some (.backendError m) =>
      ([.startBackend b, .logBackendInitFailed b m], some (.backendError m))
    | some e => ([.startBackend b], some e)

/-- `RootCommand.start_backends`. -/
def start_backends (env : Env) (backend_classes : List String) : Step :=
  let s := startBackendsLoop env backend_classes
  (.logStartingBackends backend_classes :: s.1, s.2)

/-- `RootCommand.start_core`. -/
def start_core (env : Env) : Step :=
  ([.logStartingCore, .startCore], env.coreStart)

/-- The `for frontend_class in frontend_classes` loop of
`RootCommand.start_frontends`. -/
def startFrontendsLoop (env : Env) : List String → Step
  | [] => ([], none)
  | f :: rest =>
    match env.frontendStart f with
    | none =>
      let s := startFrontendsLoop env rest
      (.startFrontend f :: s.1, s.2)
    | some (.frontendError m) =>
      ([.startFrontend f, .logFrontendInitFailed f m], some (.frontendError m))
    | some e => ([.startFrontend f], some e)

/-- `RootCommand.start_frontends`. -/
def start_frontends (env : Env) (frontend_classes : List String) : Step :=
  let s := startFrontendsLoop env frontend_classes
  (.logStartingFrontends frontend_classes :: s.1, s.2)

/-- `loop.run()`. -/
def loop_run (env : Env) : Step := ([.loopRun], env.loopRunExc)

/-- `loop.quit()`. -/
def loop_quit (env : Env) : Step := ([.loopQuit], env.loopQuitExc)

/-- The `try:` body of `RootCommand.run`. -/
def tryBody (env : Env) (backend_classes frontend_classes : List String) : Step :=
  andThen (start_audio env) <|
    andThen (start_backends env backend_classes) <|
      andThen (start_core env) <|
        andThen (start_frontends env frontend_classes) (loop_run env)

/-- The two `except` clauses of `RootCommand.run`: the tuple
`(BackendError, FrontendError, MixerError)` is handled by logging
`'Initialization error. Exiting...'`, `KeyboardInterrupt` by logging
`'Interrupted. Exiting...'`; anything else is not handled here. -/
def handleExc : Option Exc → Step
  | none => ([], none)
  | some (.backendError _) => ([.logInitExiting], none)
  | some (.frontendError _) => ([.logInitExiting], none)
  | some (.mixerError _) => ([.logInitExiting], none)
  | some .keyboardInterrupt => ([.logInterruptedExiting], none)
  | some e => ([], some e)

/-- The `for … in classes: process.stop_actors_by_class(…)` loops of
`RootCommand.stop_frontends` / `RootCommand.stop_backends`. -/
def stopClassesLoop (env : Env) : List String → Step
  | [] => ([], none)
  | c :: rest =>
    match env.stopActors c with
    | none =>
      let s := stopClassesLoop env rest
      (.stopActorsByClass c :: s.1, s.2)
    | some e => ([.stopActorsByClass c], some e)

/-- `RootCommand.stop_frontends`: stops by class identity every registered
frontend class, whether or not it was ever started. -/
def stop_frontends (env : Env) (frontend_classes : List String) : Step :=
  let s := stopClassesLoop env frontend_classes
  (.logStoppingFrontends :: s.1, s.2)

/-- `RootCommand.stop_core`: `process.stop_actors_by_class(Core)`. -/
def stop_core (env : Env) : Step :=
  ([.logStoppingCore, .stopActorsByClass "Core"], env.stopActors "Core")

/-- `RootCommand.stop_backends`. -/
def stop_backends (env : Env) (backend_classes : List String) : Step :=
  let s := stopClassesLoop env backend_classes
  (.logStoppingBackends :: s.1, s.2)

/-- `RootCommand.stop_audio`: `process.stop_actors_by_class(Audio)`. -/
def stop_audio (env : Env) : Step :=
  ([.logStoppingAudio, .stopActorsByClass "Audio"], env.stopActors "Audio")

/-- `process.stop_remaining_actors()`, the residual sweep. -/
def stop_remaining (env : Env) : Step :=
  ([.stopRemainingActors], env.stopRemaining)

/-- The `finally:` block of `RootCommand.run`, a plain statement sequence. -/
def finallyBlock (env : Env) (frontend_classes backend_classes : List String) : Step :=
  andThen (loop_quit env) <|
    andThen (stop_frontends env frontend_classes) <|
      andThen (stop_core env) <|
        andThen (stop_backends env backend_classes) <|
          andThen (stop_audio env) (stop_remaining env)

/-- `RootCommand.run` (the `try/except/finally` statement): the body runs,
then a matching `except` clause (if any), then — unconditionally — the
`finally` block.  If the `finally` block itself raises, its exception
replaces whatever was pending; otherwise the unhandled body exception (if
any) propagates. -/
def run (env : Env) (backend_classes frontend_classes : List String) : Step :=
  let body := tryBody env backend_classes frontend_classes
  let handled := handleExc body.2
  let fin := finallyBlock env frontend_classes backend_classes
  (body.1 ++ handled.1 ++ fin.1,
   match fin.2 with
   | some e => some e
   | none => handled.2)

/-- The full shutdown event sequence in source order: `loop.quit()`, stop
frontends, stop core, stop backends, stop audio, residual sweep. -/
def shutdownTrace (frontend_classes backend_classes : List String) : List Ev :=
  Ev.loopQuit ::
    (Ev.logStoppingFrontends :: frontend_classes.map Ev.stopActorsByClass) ++
      [Ev.logStoppingCore, Ev.stopActorsByClass "Core"] ++
        (Ev.logStoppingBackends :: backend_classes.map Ev.stopActorsByClass) ++
          [Ev.logStoppingAudio, Ev.stopActorsByClass "Audio"] ++
            [Ev.stopRemainingActors]

/-- The three exception classes that identify a component-start failure. -/
def isComponentError : Exc → Bool
  | .backendError _ => true
  | .frontendError _ => true
  | .mixerError _ => true
  | .keyboardInterrupt => false
  | .otherError _ => false

/-- Events that can only be emitted by the `try:` body (the Up direction). -/
def isUpEv : Ev → Bool
  | .logStartingAudio | .logStartingBackends _ | .logBackendInitFailed _ _
  | .logStartingCore | .logStartingFrontends _ | .logFrontendInitFailed _ _
  | .startAudio | .startBackend _ | .startCore | .startFrontend _ | .loopRun => true
  | _ => false

/-- Events that can only be emitted by the `finally:` block. -/
def isStopEv : Ev → Bool
  | .loopQuit | .logStoppingFrontends | .logStoppingCore | .logStoppingBackends
  | .logStoppingAudio | .stopActorsByClass _ | .stopRemainingActors => true
  | _ => false

/-- Events recording a `backend_class.start` call. -/
def isStartBackendEv : Ev → Bool
  | .startBackend _ => true
  | _ => false

/-- An environment in which every external call returns normally. -/
def envAllOk : Env where
  audioStart := none
  backendStart := fun _ => none
  coreStart := none
  frontendStart := fun _ => none
  loopRunExc := none
  loopQuitExc := none
  stopActors := fun _ => none
  stopRemaining := none

/-- An environment in which the backend class `"B2"` fails to start with a
`BackendError` and everything else succeeds. -/
def envBackendFail : Env where
  audioStart := none
  backendStart := fun b => if b = "B2" then some (.backendError "boom") else none
  coreStart := none
  frontendStart := fun _ => none
  loopRunExc := none
  loopQuitExc := none
  stopActors := fun _ => none
  stopRemaining := none

/-- An environment in which stopping the actors of frontend class `"F1"`
raises, while everything else succeeds. -/
def envStopFrontendRaises : Env where
  audioStart := none
  backendStart := fun _ => none
  coreStart := none
  frontendStart := fun _ => none
  loopRunExc := none
  loopQuitExc := none
  stopActors := fun c => if c = "F1" then some (.otherError "stuck") else none
  stopRemaining := none

/-! ## The command-tree parser/dispatcher (`Command` and subclasses) -/

/-- Values stored in the attributes of an `argparse.Namespace` by this
module: Python `None`, ints (verbosity levels), booleans, strings, the
colon-split config-file list, one `(section, key, value)` config-override
tuple, and the accumulated list of such tuples. -/
inductive Value where
  | vNone
  | vInt (i : Int)
  | vBool (b : Bool)
  | vStr (s : String)
  | vStrList (l : List String)
  | vTriple (a b c : String)
  | vTriples (l : List (String × String × String))
deriving DecidableEq, Repr

/-- An `argparse.Namespace` (also used for the override dicts): an
association list with at most one entry per key. -/
abbrev PyNamespace := List (String × Value)

/-- `setattr(ns, k, v)` / `dict[k] = v`: replace the entry for `k` in place,
or append a new one. -/
def nsSet : PyNamespace → String → Value → PyNamespace
  | [], k, v => [(k, v)]
  | (k', v') :: rest, k, v =>
    if k' = k then (k, v) :: rest else (k', v') :: nsSet rest k v

/-- `getattr(ns, k, None)`-style lookup (`none` models a missing attribute). -/
def nsGet : PyNamespace → String → Option Value
  | [], _ => none
  | (k', v') :: rest, k => if k' = k then some v' else nsGet rest k

/-- `hasattr(ns, k)`. -/
def nsHas (ns : PyNamespace) (k : String) : Bool := (nsGet ns k).isSome

/-- Writing each key/value pair of `entries` into `base` in turn: this is
both `dict.update(entries)` and the `for attr, value in overrides.items():
setattr(result, attr, value)` loop. -/
def nsUpdateAll (base : PyNamespace) (entries : List (String × Value)) : PyNamespace :=
  entries.foldl (fun a kv => nsSet a kv.1 kv.2) base

/-- Splitting a character list at the first occurrence of `c`: the
successful case of Python `s.split(c, 1)`; `none` when `c` does not occur
(in which case the Python two-target unpacking raises `ValueError`). -/
def splitOnce (c : Char) : List Char → Option (List Char × List Char)
  | [] => none
  | x :: xs =>
    if x = c then some ([], xs)
    else
      match splitOnce c xs with
      | none => none
      | some (a, b) => some (x :: a, b)

/-- `config_files_type`: `value.split(b':')`. -/
def config_files_type (value : String) : List String :=
  value.split (fun c => c = ':')

/-- `config_override_type`: split on the first `/`, then split the remainder
on its first `=`, and return the stripped triple; if either split fails the
`ValueError` is converted into an `argparse.ArgumentTypeError` whose message
names the original input. -/
def config_override_type (value : String) : Except String (String × String × String) :=
  match splitOnce '/' value.data with
  | none => .error (value ++ " must have the format section/key=value")
  | some (sec, remainder) =>
    match splitOnce '=' remainder with
    | none => .error (value ++ " must have the format section/key=value")
    | some (key, v) =>
      .ok ((String.mk sec).trim, (String.mk key).trim, (String.mk v).trim)

/-- The type converters passed as `type=` in this module, as first-class
symbols so that equality stays decidable. -/
inductive Conv where
  | configFilesConv
  | configOverrideConv
deriving DecidableEq, Repr

def applyConv : Option Conv → String → Except String Value
  | none, s => .ok (.vStr s)
  | some .configFilesConv, s => .ok (.vStrList (config_files_type s))
  | some .configOverrideConv, s =>
    match config_override_type s with
    | .ok (a, b, c) => .ok (.vTriple a b c)
    | .error m => .error m

/-- The argparse action kinds used by this module (`store`, `store_const`,
`store_true`, `count`, `append`, the module's `_HelpAction`, and `version`). -/
inductive ActionKind where
  | store (conv : Option Conv)
  | storeConst (c : Value)
  | storeTrue
  | count
  | append (conv : Option Conv)
  | showHelp
  | showVersion (version : String)
deriving DecidableEq, Repr

/-- One `add_argument` declaration: option strings, action, destination, and
default.  `default = none` models `argparse.SUPPRESS` (never written by the
defaults pass); the Python default `None` is `some .vNone`. -/
structure ArgSpec where
  flags : List String
  action : ActionKind
  dest : String
  default : Option Value
deriving DecidableEq, Repr

/-- argparse's `'/'.join(option_strings)` used in error-message prefixes. -/
def joinFlags (fs : List String) : String := String.intercalate "/" fs

/-- Option-string lookup: the first spec owning this exact flag token.
Modelled from the spec: the transient parser recognises a node's own flags
exactly (prefix abbreviation and flag clustering are not used by this
program). -/
def findFlag (specs : List ArgSpec) (t : String) : Option ArgSpec :=
  specs.find? (fun s => s.flags.contains t)

/-- Modelled from the spec: argparse classifies a token as option-like when
it starts with `-`, is not `-` alone, does not look like a negative number
(no registered flag looks like one), and contains no space.  Negative
numbers are approximated as a `-` followed by digits. -/
def isOptionLike (t : String) : Bool :=
  match t.data with
  | '-' :: c :: rest => !((c :: rest).all Char.isDigit) && !t.data.contains ' '
  | _ => false

/-- `argparse._ensure_value(ns, dest, 0)` followed by use as an int: a
missing or `None` attribute counts as `0`.  (For `count` destinations this
module only ever stores `None` or ints.) -/
def ensureInt : Option Value → Int
  | some (.vInt i) => i
  | _ => 0

/-- The `append` action: `copy(_ensure_value(ns, dest, []))` plus
`items.append(value)`, for the value shapes this module produces. -/
def appendValue (cur : Option Value) (new : Value) : Value :=
  match cur, new with
  | some (.vTriples l), .vTriple a b c => .vTriples (l ++ [(a, b, c)])
  | some (.vStrList l), .vStr s => .vStrList (l ++ [s])
  | _, .vTriple a b c => .vTriples [(a, b, c)]
  | _, .vStr s => .vStrList [s]
  | _, _ => .vStrList []

/-- Outcome of one node's `parser.parse_args(args, namespace)` call:
success with the updated namespace and the REMAINDER capture, a
`_ParserError` (the module's `error` override), a `_HelpError` raised by
`_HelpAction`, or the version action's early exit. -/
inductive ParseOutcome where
  | ok (ns : PyNamespace) (remainder : List String)
  | fail (msg : String)
  | helpRequested
  | versionRequested (version : String)
deriving DecidableEq, Repr

/-- Modelled from the spec: argparse's defaults pass — for each action in
declaration order, if the namespace does not already have the destination
and the default is not `SUPPRESS`, write the default.  When two flags share
a destination, the first declaration's default wins. -/
def applyDefaults (specs : List ArgSpec) (ns : PyNamespace) : PyNamespace :=
  specs.foldl
    (fun ns spec =>
      match spec.default with
      | none => ns
      | some d => if nsHas ns spec.dest then ns else nsSet ns spec.dest d)
    ns

/-- Modelled from the spec: the argparse parsing loop over the argument
vector.  Known flags are consumed with their action; an unknown option-like
token is collected and reported as `unrecognized arguments` at the end; the
first non-option token starts the REMAINDER capture, which swallows the
whole tail without flag interpretation. -/
def parseLoop (specs : List ArgSpec) : List String → PyNamespace → List String → ParseOutcome
  | [], ns, extras =>
    if extras.isEmpty then .ok ns []
    else .fail ("unrecognized arguments: " ++ String.intercalate " " extras)
  | t :: rest, ns, extras =>
    match findFlag specs t with
    | some spec =>
      match spec.action with
      | .showHelp => .helpRequested
      | .showVersion v => .versionRequested v
      | .storeConst c => parseLoop specs rest (nsSet ns spec.dest c) extras
      | .storeTrue => parseLoop specs rest (nsSet ns spec.dest (.vBool true)) extras
      | .count =>
        parseLoop specs rest
          (nsSet ns spec.dest (.vInt (ensureInt (nsGet ns spec.dest) + 1))) extras
      | .store conv =>
        match rest with
        | [] => .fail ("argument " ++ joinFlags spec.flags ++ ": expected one argument")
        | v :: rest2 =>
          match applyConv conv v with
          | .ok val => parseLoop specs rest2 (nsSet ns spec.dest val) extras
          | .error m => .fail ("argument " ++ joinFlags spec.flags ++ ": " ++ m)
      | .append conv =>
        match rest with
        | [] => .fail ("argument " ++ joinFlags spec.flags ++ ": expected one argument")
        | v :: rest2 =>
          match applyConv conv v with
          | .ok val =>
            parseLoop specs rest2
              (nsSet ns spec.dest (appendValue (nsGet ns spec.dest) val)) extras
          | .error m => .fail ("argument " ++ joinFlags spec.flags ++ ": " ++ m)
    | none =>
      if isOptionLike t then parseLoop specs rest ns (extras ++ [t])
      else
        if extras.isEmpty then .ok ns (t :: rest)
        else .fail ("unrecognized arguments: " ++ String.intercalate " " extras)

/-- One node's `parser.parse_args(args, namespace)`: defaults pass, then the
parsing loop.  (The `_args` REMAINDER pseudo-attribute is carried in the
outcome rather than in the namespace: it is deleted from the result at the
terminal node and overwritten at every level, so it is never observable.) -/
def parse_args (specs : List ArgSpec) (args : List String) (ns : PyNamespace) : ParseOutcome :=
  parseLoop specs args (applyDefaults specs ns) []

mutual
/-- `Command`: help text, own argument specs, children (insertion order),
and override table (`self.help`, `self._arguments`, `self._children`,
`self._overrides`). -/
inductive Command where
  | mk (helpText : Option String) (arguments : List ArgSpec)
       (children : ChildList) (overrides : List (String × Value))
/-- The ordered `name → Command` mapping `self._children`. -/
inductive ChildList where
  | nil
  | cons (name : String) (cmd : Command) (rest : ChildList)
end

def Command.helpText : Command → Option String
  | .mk h _ _ _ => h

def Command.arguments : Command → List ArgSpec
  | .mk _ a _ _ => a

def Command.children : Command → ChildList
  | .mk _ _ c _ => c

def Command.overrides : Command → List (String × Value)
  | .mk _ _ _ o => o

/-- `self._children` as a plain list. -/
def ChildList.toList : ChildList → List (String × Command)
  | .nil => []
  | .cons n c rest => (n, c) :: rest.toList

/-- Dict lookup in `self._children` (`child in self._children` plus
`self._children[child]`). -/
def childLookup : ChildList → String → Option Command
  | .nil, _ => none
  | .cons n c rest, name => if n = name then some c else childLookup rest name

/-- Python truthiness of `self.help` (`None` and `''` are falsy). -/
def helpTruthy : Option String → Bool
  | none => false
  | some s => s ≠ ""

/-- `'\n\n'.join(m for m in (usage, message) if m)` in `Command.exit`. -/
def joinNonEmpty : List String → String
  | [] => ""
  | [s] => s
  | s :: rest => s ++ "\n\n" ++ joinNonEmpty rest

/-- Python `'\n'.join(...)`. -/
def joinLines : List String → String
  | [] => ""
  | [s] => s
  | s :: rest => s ++ "\n" ++ joinLines rest

def exitOutput (usage message : Option String) : String :=
  joinNonEmpty (([usage, message].filterMap id).filter (fun s => s != ""))

/-- Modelled from the spec: the `argparse.HelpFormatter` usage line built by
`Command._usage` — a fixed rendering of the program name and the node's own
flags (plus the REMAINDER ellipsis).  The library's exact layout is
immaterial to the claims; what matters is what it depends on. -/
def usageText (actions : List ArgSpec) (prog : String) : String :=
  "usage: " ++ prog ++
    String.join (actions.map (fun a => " [" ++ joinFlags a.flags ++ "]")) ++ " ..."

/-- Modelled from the spec: the per-node block `Command._subhelp` renders
(usage with empty prefix under the displayed program name `name`, the node's
help text, and its own flags). -/
def subhelpBlock (name : String) (h : Option String) (actions : List ArgSpec) : String :=
  name ++
    String.join (actions.map (fun a => " [" ++ joinFlags a.flags ++ "]")) ++ " ...\n" ++
    (h.getD "") ++ "\n" ++
    String.join (actions.map (fun a => "    " ++ joinFlags a.flags ++ "\n"))

/-- Modelled from the spec: the part of `Command.format_help` produced by the
`argparse.HelpFormatter` — usage line, the node's help summary (when
truthy), an OPTIONS block (when the node has flags), and the `COMMANDS:`
heading when any sub-command block follows. -/
def headerText (h : Option String) (actions : List ArgSpec) (prog : String)
    (hasCommands : Bool) : String :=
  usageText actions prog ++ "\n" ++
    (if helpTruthy h then (h.getD "") ++ "\n" else "") ++
    (if !actions.isEmpty then
      "OPTIONS:\n" ++
        String.join (actions.map (fun a => "    " ++ joinFlags a.flags ++ "\n"))
    else "") ++
    (if hasCommands then "COMMANDS:\n" else "")

mutual
/-- `Command._subhelp(name, result)`: append this node's block when
`self.help or actions` is truthy, then recurse into every child with the
space-extended name; returns the appended blocks in order. -/
def Command._subhelp (cmd : Command) (name : String) : List String :=
  match cmd with
  | .mk h args children _ =>
    (if helpTruthy h || !args.isEmpty then [subhelpBlock name h args] else []) ++
      subhelpList children name
/-- The `for childname, child in self._children.items()` loop of `_subhelp`. -/
def subhelpList : ChildList → String → List String
  | .nil, _ => []
  | .cons childname child rest, name =>
    child._subhelp (name ++ " " ++ childname) ++ subhelpList rest name
end

/-- The `for name, child in self._children.items(): child._subhelp(name, …)`
loop of `Command.format_help` (each top-level child's displayed name is its
bare sub-command name). -/
def subhelpTop : ChildList → List String
  | .nil => []
  | .cons name child rest => child._subhelp name ++ subhelpTop rest

/-- `Command.format_help`: the formatter part, then
`'\n'.join(subhelp)` with a `''` sentinel inserted first when any
sub-command block exists. -/
def Command.format_help (cmd : Command) (prog : String) : String :=
  match cmd with
  | .mk h args children _ =>
    let subhelp := subhelpTop children
    headerText h args prog (!subhelp.isEmpty) ++
      joinLines (if subhelp.isEmpty then [] else "" :: subhelp)

/-- `Command.format_usage`. -/
def Command.format_usage (cmd : Command) (prog : String) : String :=
  usageText cmd.arguments prog ++ "\n"

/-- Result of a dispatch: a `ParsedResult` (namespace plus terminal command),
a `Command.exit` (printed output plus `sys.exit` status), or a propagating
`_HelpError` (converted by `Command.parse` at the node dispatch was invoked
on). -/
inductive DispatchResult where
  | parsed (ns : PyNamespace) (command : Command)
  | exit (status : Nat) (output : String)
  | helpExit

mutual
/-- `Command._parse(args, namespace, overrides, prog)`: merge this node's
overrides, parse this node's flags; a `_ParserError` exits 1 with usage and
message; a `_HelpError` propagates; an empty remainder makes this node
terminal (apply the merged overrides to the result, record the command);
otherwise the first remainder token selects a child to recurse into. -/
def Command._parse : Command → List String → PyNamespace → List (String × Value) →
    String → DispatchResult
  | .mk h args children ovr, argv, ns, ov, prog =>
    match parse_args args argv ns with
    | .fail m => .exit 1 (exitOutput (some (usageText args prog)) (some m))
    | .helpRequested => .helpExit
    | .versionRequested v => .exit 0 v
    | .ok ns' rem =>
      match rem with
      | [] => .parsed (nsUpdateAll ns' (nsUpdateAll ov ovr)) (.mk h args children ovr)
      | child :: rest =>
        dispatchChild children child rest ns' (nsUpdateAll ov ovr) prog
          (usageText args prog)
/-- `result._args.pop(0)` handling: find the child registered under the
popped token and recurse into it with the remaining tokens and the extended
program name, or exit 1 with `unrecognized command`. -/
def dispatchChild : ChildList → String → List String → PyNamespace →
    List (String × Value) → String → String → DispatchResult
  | .nil, child, _, _, _, _, usage =>
    .exit 1 (exitOutput (some usage) (some ("unrecognized command: " ++ child)))
  | .cons n c rest, child, argv, ns, ov, prog, usage =>
    if n = child then c._parse argv ns ov (prog ++ " " ++ child)
    else dispatchChild rest child argv ns ov prog usage
end

/-- `Command.parse(args, prog)`: run `_parse` on a fresh namespace with a
copy of this node's override dict (the dict's content is the last-wins
fold of its entries), and convert a propagating `_HelpError` into
`exit(0, self.format_help(prog))` — `self` being the node `parse` was
invoked on. -/
def Command.parse (cmd : Command) (args : List String) (prog : String) : DispatchResult :=
  match cmd._parse args [] (nsUpdateAll [] cmd.overrides) prog with
  | .helpExit => .exit 0 (cmd.format_help prog)
  | r => r

/-! ## Spec-side definitions used for refinement-style claims -/

mutual
/-- Spec-side (claim C2): the chain of override tables along the
root-to-terminal path together with the raw flag-parsed namespace, following
the spec's description of dispatch (one level per tree depth, remainder head
selects the child). -/
def routeOverrides (cmd : Command) (argv : List String) (ns : PyNamespace) :
    Option (List (List (String × Value)) × PyNamespace) :=
  match cmd with
  | .mk _ args children ovr =>
    match parse_args args argv ns with
    | .ok ns' [] => some ([ovr], ns')
    | .ok ns' (child :: rest) =>
      match routeChild children child rest ns' with
      | some pr => some (ovr :: pr.1, pr.2)
      | none => none
    | _ => none
def routeChild : ChildList → String → List String → PyNamespace →
    Option (List (List (String × Value)) × PyNamespace)
  | .nil, _, _, _ => none
  | .cons n c restC, child, argv, ns =>
    if n = child then routeOverrides c argv ns else routeChild restC child argv ns
end

/-- Spec-side (claim C9): whether a node contributes its own block to the
COMMANDS listing — it has help summary text or at least one argument. -/
def qualifies : Command → Bool
  | .mk h args _ _ => helpTruthy h || !args.isEmpty

mutual
/-- Spec-side (claim C9): pre-order enumeration of all descendants of a node
with their space-joined display paths. -/
def allDescendants (cmd : Command) (name : String) : List (String × Command) :=
  match cmd with
  | .mk _ _ children _ => allDescendantsList children name
def allDescendantsList : ChildList → String → List (String × Command)
  | .nil, _ => []
  | .cons childname child rest, name =>
    (name ++ " " ++ childname, child) ::
      (allDescendants child (name ++ " " ++ childname) ++ allDescendantsList rest name)
end

/-- Spec-side (claim C9): pre-order enumeration of all descendants starting
from a node's children, each top-level child displayed under its bare name. -/
def allDescendantsTop : ChildList → List (String × Command)
  | .nil => []
  | .cons childname child rest =>
    (childname, child) :: (allDescendants child childname ++ allDescendantsTop rest)

/-- Spec-side (claim C9): the COMMANDS block contents — filter the pre-order
descendant enumeration to the qualifying nodes and render each under its
path name. -/
def specCommandBlocks (children : ChildList) : List String :=
  ((allDescendantsTop children).filter (fun pc => qualifies pc.2)).map
    (fun pc => subhelpBlock pc.1 pc.2.helpText pc.2.arguments)

/-! ## The concrete root command -/

/-- `RootCommand.__init__`'s argument declarations.  `default_config` stands
for the glib-derived `DEFAULT_CONFIG` path string and `version` for
`versioning.get_version()` (both external).  The string default of
`--config` is modelled already converted by `config_files_type`, which is
how argparse delivers an untouched string default that has a type converter.
`-q`/`-v` share the destination `verbosity_level`; `-q` declares no default
(Python `None`), `-v` declares default `0` — the defaults pass takes the
first declaration's default.  `==SUPPRESS==` destinations with `none`
defaults model the help and version actions. -/
def rootArguments (default_config version : String) : List ArgSpec :=
  [⟨["-h", "--help"], .showHelp, "==SUPPRESS==", none⟩,
   ⟨["--version"], .showVersion version, "==SUPPRESS==", none⟩,
   ⟨["-q", "--quiet"], .storeConst (.vInt (-1)), "verbosity_level", some .vNone⟩,
   ⟨["-v", "--verbose"], .count, "verbosity_level", some (.vInt 0)⟩,
   ⟨["--save-debug-log"], .storeTrue, "save_debug_log", some (.vBool false)⟩,
   ⟨["--config"], .store (some .configFilesConv), "config_files",
     some (.vStrList (config_files_type default_config))⟩,
   ⟨["-o", "--option"], .append (some .configOverrideConv), "config_overrides",
     some .vNone⟩]

/-- The `RootCommand` node: no help text, the seven flags above, no
children, and the `self.set(base_verbosity_level=0)` override. -/
def rootCommandNode (default_config version : String) : Command :=
  .mk none (rootArguments default_config version) .nil [("base_verbosity_level", .vInt 0)]

/-! ## Concrete fixtures for witnesses and counterexamples -/

/-- `t` occurs as a contiguous substring of `s`. -/
def strContains (s t : String) : Prop := ∃ p q : String, s = p ++ t ++ q

/-- First-wins choice on optional values (used to state lookup lemmas). -/
def nsOr (a b : Option Value) : Option Value :=
  match a with
  | some v => some v
  | none => b

/-- Observer: the value a dispatch result holds for destination `k` (only a
`ParsedResult` holds values). -/
def parsedValue (r : DispatchResult) (k : String) : Option Value :=
  match r with
  | .parsed ns _ => nsGet ns k
  | _ => none

/-- Observer: the namespace of a `ParsedResult` (empty otherwise). -/
def resultNamespaceD (r : DispatchResult) : PyNamespace :=
  match r with
  | .parsed ns _ => ns
  | _ => []

/-- Observer: the terminal command of a `ParsedResult` (`d` otherwise). -/
def resultCommandD (r : DispatchResult) (d : Command) : Command :=
  match r with
  | .parsed _ c => c
  | _ => d

/-- A childless command with a help summary and one flag. -/
def subCommand : Command :=
  .mk (some "Sub help.") [⟨["-h", "--help"], .showHelp, "==SUPPRESS==", none⟩]
    .nil [("x", .vInt 2)]

/-- A root command with a help summary, a help flag, one child `sub`, and an
override that collides with the child's. -/
def rootFixture : Command :=
  .mk (some "Root help.") [⟨["-h", "--help"], .showHelp, "==SUPPRESS==", none⟩]
    (.cons "sub" subCommand .nil) [("x", .vInt 1), ("y", .vInt 7)]

end Mopidy

-- ### Theorems

namespace Mopidy

theorem mem_andThen {e : Ev} {a b : Step} (h : e ∈ (andThen a b).1) :
    e ∈ a.1 ∨ e ∈ b.1 := by
  rcases a with ⟨t, exc⟩
  cases exc <;> simp [andThen] at h <;> tauto

theorem stopClassesLoop_ok (env : Env) :
    ∀ cs : List String, (∀ c ∈ cs, env.stopActors c = none) →
      stopClassesLoop env cs = (cs.map Ev.stopActorsByClass, none)
  | [], _ => rfl
  | c :: rest, h => by
    have hc : env.stopActors c = none := h c (List.mem_cons_self c rest)
    have ih := stopClassesLoop_ok env rest (fun x hx => h x (List.mem_cons_of_mem _ hx))
    simp [stopClassesLoop, hc, ih]

theorem stopClassesLoop_firstFail (env : Env) (c : String) (e : Exc) (post : List String)
    (hc : env.stopActors c = some e) :
    ∀ p : List String, (∀ x ∈ p, env.stopActors x = none) →
      stopClassesLoop env (p ++ c :: post) =
        (p.map Ev.stopActorsByClass ++ [.stopActorsByClass c], some e)
  | [], _ => by simp [stopClassesLoop, hc]
  | x :: rest, h => by
    have hx : env.stopActors x = none := h x (List.mem_cons_self x rest)
    have ih := stopClassesLoop_firstFail env c e post hc rest
      (fun y hy => h y (List.mem_cons_of_mem _ hy))
    simp [stopClassesLoop, hx, ih]

theorem mem_stopClassesLoop (env : Env) :
    ∀ cs : List String, ∀ e ∈ (stopClassesLoop env cs).1, ∃ c, e = Ev.stopActorsByClass c
  | [], e, h => by simp [stopClassesLoop] at h
  | c :: rest, e, h => by
    cases hc : env.stopActors c with
    | none =>
      simp [stopClassesLoop, hc] at h
      rcases h with rfl | hmem
      · exact ⟨c, rfl⟩
      · exact mem_stopClassesLoop env rest e hmem
    | some exc =>
      simp [stopClassesLoop, hc] at h
      exact ⟨c, h⟩

theorem mem_finallyBlock (env : Env) (fcs bcs : List String) :
    ∀ e ∈ (finallyBlock env fcs bcs).1, isStopEv e = true := by
  intro e h
  unfold finallyBlock at h
  rcases mem_andThen h with h | h
  · simp [loop_quit] at h; subst h; rfl
  rcases mem_andThen h with h | h
  · simp [stop_frontends] at h
    rcases h with rfl | hmem
    · rfl
    · obtain ⟨c, rfl⟩ := mem_stopClassesLoop env fcs e hmem; rfl
  rcases mem_andThen h with h | h
  · simp [stop_core] at h
    rcases h with rfl | rfl <;> rfl
  rcases mem_andThen h with h | h
  · simp [stop_backends] at h
    rcases h with rfl | hmem
    · rfl
    · obtain ⟨c, rfl⟩ := mem_stopClassesLoop env bcs e hmem; rfl
  rcases mem_andThen h with h | h
  · simp [stop_audio] at h
    rcases h with rfl | rfl <;> rfl
  · simp [stop_remaining] at h; subst h; rfl

theorem mem_startBackendsLoop (env : Env) :
    ∀ cs : List String, ∀ e ∈ (startBackendsLoop env cs).1, isUpEv e = true
  | [], e, h => by simp [startBackendsLoop] at h
  | c :: rest, e, h => by
    cases hc : env.backendStart c with
    | none =>
      simp [startBackendsLoop, hc] at h
      rcases h with rfl | hmem
      · rfl
      · exact mem_startBackendsLoop env rest e hmem
    | some exc =>
      cases exc <;> simp [startBackendsLoop, hc] at h <;>
        rcases h with rfl | rfl <;> rfl

theorem mem_startFrontendsLoop (env : Env) :
    ∀ cs : List String, ∀ e ∈ (startFrontendsLoop env cs).1, isUpEv e = true
  | [], e, h => by simp [startFrontendsLoop] at h
  | c :: rest, e, h => by
    cases hc : env.frontendStart c with
    | none =>
      simp [startFrontendsLoop, hc] at h
      rcases h with rfl | hmem
      · rfl
      · exact mem_startFrontendsLoop env rest e hmem
    | some exc =>
      cases exc <;> simp [startFrontendsLoop, hc] at h <;>
        rcases h with rfl | rfl <;> rfl

theorem mem_tryBody (env : Env) (bcs fcs : List String) :
    ∀ e ∈ (tryBody env bcs fcs).1, isUpEv e = true := by
  intro e h
  unfold tryBody at h
  rcases mem_andThen h with h | h
  · simp [start_audio] at h
    rcases h with rfl | rfl <;> rfl
  rcases mem_andThen h with h | h
  · simp [start_backends] at h
    rcases h with rfl | hmem
    · rfl
    · exact mem_startBackendsLoop env bcs e hmem
  rcases mem_andThen h with h | h
  · simp [start_core] at h
    rcases h with rfl | rfl <;> rfl
  rcases mem_andThen h with h | h
  · simp [start_frontends] at h
    rcases h with rfl | hmem
    · rfl
    · exact mem_startFrontendsLoop env fcs e hmem
  · simp [loop_run] at h; subst h; rfl

theorem mem_handleExc (o : Option Exc) :
    ∀ e ∈ (handleExc o).1, e = Ev.logInitExiting ∨ e = Ev.logInterruptedExiting := by
  intro e h
  cases o with
  | none => simp [handleExc] at h
  | some exc => cases exc <;> simp [handleExc] at h <;> tauto

theorem finallyBlock_ok (env : Env) (fcs bcs : List String)
    (hq : env.loopQuitExc = none) (hs : ∀ c, env.stopActors c = none)
    (hr : env.stopRemaining = none) :
    finallyBlock env fcs bcs = (shutdownTrace fcs bcs, none) := by
  simp [finallyBlock, andThen, loop_quit, stop_frontends, stop_core, stop_backends,
    stop_audio, stop_remaining, hq, hr, hs,
    stopClassesLoop_ok env fcs (fun c _ => hs c),
    stopClassesLoop_ok env bcs (fun c _ => hs c), shutdownTrace]

/-- C1: whatever the outcome of the Up stages and of the event loop (normal
return, a component-start failure at any stage, an interruption, or any other
exception), the trace of `RootCommand.run` ends with the complete shutdown
sequence in exactly the reverse of startup order: stop frontends, stop core,
stop backends, stop audio, then the residual sweep (with `loop.quit()` first,
as in the source).  The hypotheses only say that the shutdown calls themselves
return normally. -/
theorem run_shutdown_reverse_order (env : Env) (bcs fcs : List String)
    (hq : env.loopQuitExc = none) (hs : ∀ c, env.stopActors c = none)
    (hr : env.stopRemaining = none) :
    ∃ pre, (run env bcs fcs).1 = pre ++ shutdownTrace fcs bcs := by
  refine ⟨(tryBody env bcs fcs).1 ++ (handleExc (tryBody env bcs fcs).2).1, ?_⟩
  simp [run, finallyBlock_ok env fcs bcs hq hs hr]

/-- Witness for C1: with a scripted `BackendError` for backend `"B2"`, the
trace still ends with the full shutdown sequence. -/
theorem run_shutdown_reverse_order_witness :
    ∃ pre, (run envBackendFail ["B1", "B2"] ["F1"]).1 =
      pre ++ shutdownTrace ["F1"] ["B1", "B2"] :=
  run_shutdown_reverse_order envBackendFail ["B1", "B2"] ["F1"] rfl (fun _ => rfl) rfl

/-- C7: any `BackendError`/`FrontendError`/`MixerError` escaping the `try:`
body of `RootCommand.run` is caught there: the handler logs
`'Initialization error. Exiting...'`, the whole shutdown sequence still runs,
and `run` raises nothing to its caller (provided the shutdown calls themselves
return normally). -/
theorem run_component_error_not_reraised (env : Env) (bcs fcs : List String) (e : Exc)
    (hb : (tryBody env bcs fcs).2 = some e) (hc : isComponentError e = true)
    (hfin : (finallyBlock env fcs bcs).2 = none) :
    (run env bcs fcs).2 = none ∧
      (run env bcs fcs).1 =
        (tryBody env bcs fcs).1 ++ [Ev.logInitExiting] ++ (finallyBlock env fcs bcs).1 := by
  have hh : handleExc (tryBody env bcs fcs).2 = ([Ev.logInitExiting], none) := by
    rw [hb]; cases e <;> simp_all [handleExc, isComponentError]
  refine ⟨?_, ?_⟩
  · simp [run, hh, hfin]
  · simp [run, hh]

/-- Witness for C7: the scripted backend failure is caught and converted into
the shutdown sequence. -/
theorem run_component_error_not_reraised_witness :
    (run envBackendFail ["B1", "B2"] ["F1"]).2 = none ∧
      (run envBackendFail ["B1", "B2"] ["F1"]).1 =
        (tryBody envBackendFail ["B1", "B2"] ["F1"]).1 ++ [Ev.logInitExiting] ++
          (finallyBlock envBackendFail ["F1"] ["B1", "B2"]).1 :=
  run_component_error_not_reraised envBackendFail ["B1", "B2"] ["F1"]
    (.backendError "boom") rfl rfl rfl

theorem startBackendsLoop_firstFail (env : Env) (b m : String) (post : List String)
    (hb : env.backendStart b = some (.backendError m)) :
    ∀ pre : List String, (∀ c ∈ pre, env.backendStart c = none) →
      startBackendsLoop env (pre ++ b :: post) =
        (pre.map Ev.startBackend ++ [.startBackend b, .logBackendInitFailed b m],
         some (.backendError m))
  | [], _ => by simp [startBackendsLoop, hb]
  | c :: rest, h => by
    have hc : env.backendStart c = none := h c (List.mem_cons_self c rest)
    have ih := startBackendsLoop_firstFail env b m post hb rest
      (fun x hx => h x (List.mem_cons_of_mem _ hx))
    simp [startBackendsLoop, hc, ih]

/-- C5: with audio up and the backend stage failing at `b` with a
`BackendError` (all earlier backends starting fine), the backends that were
asked to start are exactly the earlier ones plus `b` in registration order —
no later backend is attempted — the failing backend's identity is logged,
core is never started, audio is asked to start exactly once, and the event
loop (the Running state) is never entered. -/
theorem backend_failure_aborts_startup (env : Env)
    (pre post fcs : List String) (b m : String)
    (ha : env.audioStart = none)
    (hpre : ∀ c ∈ pre, env.backendStart c = none)
    (hb : env.backendStart b = some (.backendError m)) :
    (run env (pre ++ b :: post) fcs).1.filter isStartBackendEv =
        (pre ++ [b]).map Ev.startBackend ∧
      Ev.logBackendInitFailed b m ∈ (run env (pre ++ b :: post) fcs).1 ∧
      Ev.startCore ∉ (run env (pre ++ b :: post) fcs).1 ∧
      (run env (pre ++ b :: post) fcs).1.count Ev.startAudio = 1 ∧
      Ev.loopRun ∉ (run env (pre ++ b :: post) fcs).1 := by
  have hloop := startBackendsLoop_firstFail env b m post hb pre hpre
  have hbody : tryBody env (pre ++ b :: post) fcs =
      (Ev.logStartingAudio :: Ev.startAudio ::
        Ev.logStartingBackends (pre ++ b :: post) ::
          (pre.map Ev.startBackend ++ [.startBackend b, .logBackendInitFailed b m]),
       some (.backendError m)) := by
    simp [tryBody, start_audio, ha, start_backends, hloop, andThen]
  have hrun : (run env (pre ++ b :: post) fcs).1 =
      (Ev.logStartingAudio :: Ev.startAudio ::
        Ev.logStartingBackends (pre ++ b :: post) ::
          (pre.map Ev.startBackend ++ [.startBackend b, .logBackendInitFailed b m])) ++
        [Ev.logInitExiting] ++ (finallyBlock env fcs (pre ++ b :: post)).1 := by
    simp [run, hbody, handleExc]
  have hfin := mem_finallyBlock env fcs (pre ++ b :: post)
  have hfinCore : Ev.startCore ∉ (finallyBlock env fcs (pre ++ b :: post)).1 := by
    intro hmem
    have := hfin _ hmem
    simp [isStopEv] at this
  have hfinLoop : Ev.loopRun ∉ (finallyBlock env fcs (pre ++ b :: post)).1 := by
    intro hmem
    have := hfin _ hmem
    simp [isStopEv] at this
  have hfinAudio : Ev.startAudio ∉ (finallyBlock env fcs (pre ++ b :: post)).1 := by
    intro hmem
    have := hfin _ hmem
    simp [isStopEv] at this
  refine ⟨?_, ?_, ?_, ?_, ?_⟩
  · rw [hrun]
    have hmapf : (pre.map Ev.startBackend).filter isStartBackendEv =
        pre.map Ev.startBackend :=
      List.filter_eq_self.mpr (fun e he => by
        obtain ⟨c, _, rfl⟩ := List.mem_map.mp he; rfl)
    have h2 : (finallyBlock env fcs (pre ++ b :: post)).1.filter isStartBackendEv = [] := by
      refine List.filter_eq_nil_iff.mpr (fun e he => ?_)
      have := hfin e he
      cases e <;> simp_all [isStopEv, isStartBackendEv]
    simp [List.filter_append, isStartBackendEv, hmapf, h2]
  · rw [hrun]; simp
  · rw [hrun]
    simp [hfinCore]
  · rw [hrun]
    have h1 : (pre.map Ev.startBackend).count Ev.startAudio = 0 :=
      List.count_eq_zero.mpr (fun hmem => by
        obtain ⟨c, _, hcontra⟩ := List.mem_map.mp hmem; exact Ev.noConfusion hcontra)
    have h2 : (finallyBlock env fcs (pre ++ b :: post)).1.count Ev.startAudio = 0 :=
      List.count_eq_zero.mpr hfinAudio
    simp [List.count_cons, List.count_append, h1, h2]
  · rw [hrun]
    simp [hfinLoop]

/-- Witness for C5, at the scripted failure of backend `"B2"` after `"B1"`. -/
theorem backend_failure_aborts_startup_witness :
    (run envBackendFail (["B1"] ++ "B2" :: ["B3"]) ["F1"]).1.filter isStartBackendEv =
        (["B1"] ++ ["B2"]).map Ev.startBackend ∧
      Ev.logBackendInitFailed "B2" "boom" ∈
        (run envBackendFail (["B1"] ++ "B2" :: ["B3"]) ["F1"]).1 ∧
      Ev.startCore ∉ (run envBackendFail (["B1"] ++ "B2" :: ["B3"]) ["F1"]).1 ∧
      (run envBackendFail (["B1"] ++ "B2" :: ["B3"]) ["F1"]).1.count Ev.startAudio = 1 ∧
      Ev.loopRun ∉ (run envBackendFail (["B1"] ++ "B2" :: ["B3"]) ["F1"]).1 :=
  backend_failure_aborts_startup envBackendFail ["B1"] ["B3"] ["F1"] "B2" "boom"
    rfl (by intro c hc; simp at hc; subst hc; rfl) rfl

/-- C3 counterexample: the `finally:` block of `RootCommand.run` is a plain
statement sequence with no per-step exception protection.  In a run where
every start succeeds but `process.stop_actors_by_class` raises for frontend
class `"F1"`, the stop-frontends step runs and fails, and then none of the
remaining stop steps (stop core, stop backends, stop audio, residual sweep)
runs — contradicting the claim that a failing stop step can never cancel the
remaining cleanup. -/
theorem stop_step_failure_cancels_rest :
    Ev.logStoppingFrontends ∈ (run envStopFrontendRaises ["B1"] ["F1"]).1 ∧
      Ev.logStoppingCore ∉ (run envStopFrontendRaises ["B1"] ["F1"]).1 ∧
      Ev.logStoppingBackends ∉ (run envStopFrontendRaises ["B1"] ["F1"]).1 ∧
      Ev.logStoppingAudio ∉ (run envStopFrontendRaises ["B1"] ["F1"]).1 ∧
      Ev.stopRemainingActors ∉ (run envStopFrontendRaises ["B1"] ["F1"]).1 := by
  decide

theorem andThen_fail {a : Step} (b : Step) {e : Exc} (ha : a.2 = some e) :
    andThen a b = (a.1, some e) := by
  rcases a with ⟨t, exc⟩
  change exc = some e at ha
  subst ha
  rfl

theorem mem_stop_frontends (env : Env) (cs : List String) :
    ∀ ev ∈ (stop_frontends env cs).1,
      ev = Ev.logStoppingFrontends ∨ ∃ x, ev = Ev.stopActorsByClass x := by
  intro ev h
  simp [stop_frontends] at h
  rcases h with rfl | hm
  · exact Or.inl rfl
  · exact Or.inr (mem_stopClassesLoop env cs ev hm)

theorem mem_stop_backends (env : Env) (cs : List String) :
    ∀ ev ∈ (stop_backends env cs).1,
      ev = Ev.logStoppingBackends ∨ ∃ x, ev = Ev.stopActorsByClass x := by
  intro ev h
  simp [stop_backends] at h
  rcases h with rfl | hm
  · exact Or.inl rfl
  · exact Or.inr (mem_stopClassesLoop env cs ev hm)

theorem stopClassesLoop_fails (env : Env) :
    ∀ cs : List String, (∃ c ∈ cs, env.stopActors c ≠ none) →
      (stopClassesLoop env cs).2 ≠ none
  | [], h => by simp at h
  | c :: rest, h => by
    cases hc : env.stopActors c with
    | some e => simp [stopClassesLoop, hc]
    | none =>
      obtain ⟨x, hx, hne⟩ := h
      rcases List.mem_cons.mp hx with rfl | hxm
      · exact absurd hc hne
      · have := stopClassesLoop_fails env rest ⟨x, hxm, hne⟩
        simpa [stopClassesLoop, hc] using this

theorem fin_truncated_at_quit (env : Env) (fcs bcs : List String) {e : Exc}
    (hq : env.loopQuitExc = some e) :
    (finallyBlock env fcs bcs).1 = [Ev.loopQuit] := by
  unfold finallyBlock
  rw [andThen_fail _ (show (loop_quit env).2 = some e by simp [loop_quit, hq])]
  rfl

theorem fin_notMem_frontends_fail (env : Env) (fcs bcs : List String) {e : Exc}
    (he : (stopClassesLoop env fcs).2 = some e) (M : Ev)
    (h1 : M ≠ Ev.loopQuit) (h2 : M ≠ Ev.logStoppingFrontends)
    (h3 : ∀ x, M ≠ Ev.stopActorsByClass x) :
    M ∉ (finallyBlock env fcs bcs).1 := by
  intro hmem
  unfold finallyBlock at hmem
  rw [andThen_fail _
    (show (stop_frontends env fcs).2 = some e by simp [stop_frontends, he])] at hmem
  rcases mem_andThen hmem with hm | hm
  · simp [loop_quit] at hm
    exact h1 hm
  · rcases mem_stop_frontends env fcs M hm with hm' | ⟨x, hm'⟩
    · exact h2 hm'
    · exact h3 x hm'

theorem fin_notMem_core_fail (env : Env) (fcs bcs : List String) {e : Exc}
    (he : env.stopActors "Core" = some e) (M : Ev)
    (h1 : M ≠ Ev.loopQuit) (h2 : M ≠ Ev.logStoppingFrontends)
    (h3 : ∀ x, M ≠ Ev.stopActorsByClass x) (h4 : M ≠ Ev.logStoppingCore) :
    M ∉ (finallyBlock env fcs bcs).1 := by
  intro hmem
  unfold finallyBlock at hmem
  rw [andThen_fail _ (show (stop_core env).2 = some e by simp [stop_core, he])] at hmem
  rcases mem_andThen hmem with hm | hm
  · simp [loop_quit] at hm
    exact h1 hm
  rcases mem_andThen hm with hm | hm
  · rcases mem_stop_frontends env fcs M hm with hm' | ⟨x, hm'⟩
    · exact h2 hm'
    · exact h3 x hm'
  · simp [stop_core] at hm
    rcases hm with rfl | rfl
    · exact h4 rfl
    · exact h3 "Core" rfl

theorem fin_notMem_backends_fail (env : Env) (fcs bcs : List String) {e : Exc}
    (he : (stopClassesLoop env bcs).2 = some e) (M : Ev)
    (h1 : M ≠ Ev.loopQuit) (h2 : M ≠ Ev.logStoppingFrontends)
    (h3 : ∀ x, M ≠ Ev.stopActorsByClass x) (h4 : M ≠ Ev.logStoppingCore)
    (h5 : M ≠ Ev.logStoppingBackends) :
    M ∉ (finallyBlock env fcs bcs).1 := by
  intro hmem
  unfold finallyBlock at hmem
  rw [andThen_fail _
    (show (stop_backends env bcs).2 = some e by simp [stop_backends, he])] at hmem
  rcases mem_andThen hmem with hm | hm
  · simp [loop_quit] at hm
    exact h1 hm
  rcases mem_andThen hm with hm | hm
  · rcases mem_stop_frontends env fcs M hm with hm' | ⟨x, hm'⟩
    · exact h2 hm'
    · exact h3 x hm'
  rcases mem_andThen hm with hm | hm
  · simp [stop_core] at hm
    rcases hm with rfl | rfl
    · exact h4 rfl
    · exact h3 "Core" rfl
  · rcases mem_stop_backends env bcs M hm with hm' | ⟨x, hm'⟩
    · exact h5 hm'
    · exact h3 x hm'

theorem fin_notMem_audio_fail (env : Env) (fcs bcs : List String) {e : Exc}
    (he : env.stopActors "Audio" = some e) (M : Ev)
    (h1 : M ≠ Ev.loopQuit) (h2 : M ≠ Ev.logStoppingFrontends)
    (h3 : ∀ x, M ≠ Ev.stopActorsByClass x) (h4 : M ≠ Ev.logStoppingCore)
    (h5 : M ≠ Ev.logStoppingBackends) (h6 : M ≠ Ev.logStoppingAudio) :
    M ∉ (finallyBlock env fcs bcs).1 := by
  intro hmem
  unfold finallyBlock at hmem
  rw [andThen_fail _ (show (stop_audio env).2 = some e by simp [stop_audio, he])] at hmem
  rcases mem_andThen hmem with hm | hm
  · simp [loop_quit] at hm
    exact h1 hm
  rcases mem_andThen hm with hm | hm
  · rcases mem_stop_frontends env fcs M hm with hm' | ⟨x, hm'⟩
    · exact h2 hm'
    · exact h3 x hm'
  rcases mem_andThen hm with hm | hm
  · simp [stop_core] at hm
    rcases hm with rfl | rfl
    · exact h4 rfl
    · exact h3 "Core" rfl
  rcases mem_andThen hm with hm | hm
  · rcases mem_stop_backends env bcs M hm with hm' | ⟨x, hm'⟩
    · exact h5 hm'
    · exact h3 x hm'
  · simp [stop_audio] at hm
    rcases hm with rfl | rfl
    · exact h6 rfl
    · exact h3 "Audio" rfl

theorem notMem_run_of_notMem_finally (env : Env) (bcs fcs : List String) (M : Ev)
    (hup : isUpEv M = false) (h1 : M ≠ Ev.logInitExiting)
    (h2 : M ≠ Ev.logInterruptedExiting)
    (hfin : M ∉ (finallyBlock env fcs bcs).1) : M ∉ (run env bcs fcs).1 := by
  intro h
  simp only [run, List.mem_append] at h
  rcases h with (h | h) | h
  · have := mem_tryBody env bcs fcs M h
    simp [hup] at this
  · rcases mem_handleExc (tryBody env bcs fcs).2 M h with he | he
    · exact h1 he
    · exact h2 he
  · exact hfin h

/-- C3 (amended): the stop steps are executed in a fixed sequence without
individual exception protection.  (a) A component never having been started
neither fails nor skips any stop step — the four stop steps are unconditional
class-identity calls, so whenever no stop call of an earlier step raises, all
four stop steps run, whatever the Up stages did; (b) but if any call of the
shutdown sequence raises — `loop.quit()`, a frontend-class stop, the core
stop, a backend-class stop, or the audio stop — none of the subsequent stop
steps runs. -/
theorem stop_steps_sequential_no_protection (env : Env) (bcs fcs : List String) :
    ((env.loopQuitExc = none → (∀ c ∈ fcs, env.stopActors c = none) →
        env.stopActors "Core" = none → (∀ c ∈ bcs, env.stopActors c = none) →
        Ev.logStoppingFrontends ∈ (run env bcs fcs).1 ∧
          Ev.logStoppingCore ∈ (run env bcs fcs).1 ∧
          Ev.logStoppingBackends ∈ (run env bcs fcs).1 ∧
          Ev.logStoppingAudio ∈ (run env bcs fcs).1)) ∧
      (env.loopQuitExc ≠ none →
        Ev.logStoppingFrontends ∉ (run env bcs fcs).1 ∧
          Ev.logStoppingCore ∉ (run env bcs fcs).1 ∧
          Ev.logStoppingBackends ∉ (run env bcs fcs).1 ∧
          Ev.logStoppingAudio ∉ (run env bcs fcs).1 ∧
          Ev.stopRemainingActors ∉ (run env bcs fcs).1) ∧
      ((∃ c ∈ fcs, env.stopActors c ≠ none) →
        Ev.logStoppingCore ∉ (run env bcs fcs).1 ∧
          Ev.logStoppingBackends ∉ (run env bcs fcs).1 ∧
          Ev.logStoppingAudio ∉ (run env bcs fcs).1 ∧
          Ev.stopRemainingActors ∉ (run env bcs fcs).1) ∧
      (env.stopActors "Core" ≠ none →
        Ev.logStoppingBackends ∉ (run env bcs fcs).1 ∧
          Ev.logStoppingAudio ∉ (run env bcs fcs).1 ∧
          Ev.stopRemainingActors ∉ (run env bcs fcs).1) ∧
      ((∃ c ∈ bcs, env.stopActors c ≠ none) →
        Ev.logStoppingAudio ∉ (run env bcs fcs).1 ∧
          Ev.stopRemainingActors ∉ (run env bcs fcs).1) ∧
      (env.stopActors "Audio" ≠ none →
        Ev.stopRemainingActors ∉ (run env bcs fcs).1) := by
  refine ⟨?_, ?_, ?_, ?_, ?_, ?_⟩
  · intro hq hf hcore hb
    have hfr := stopClassesLoop_ok env fcs hf
    have hbk := stopClassesLoop_ok env bcs hb
    have hfin1 : (finallyBlock env fcs bcs).1 =
        Ev.loopQuit ::
          (Ev.logStoppingFrontends :: fcs.map Ev.stopActorsByClass) ++
            [Ev.logStoppingCore, Ev.stopActorsByClass "Core"] ++
              (Ev.logStoppingBackends :: bcs.map Ev.stopActorsByClass) ++
                (andThen (stop_audio env) (stop_remaining env)).1 := by
      simp [finallyBlock, andThen, loop_quit, stop_frontends, stop_core, stop_backends,
        hq, hcore, hfr, hbk]
    have haud : Ev.logStoppingAudio ∈ (andThen (stop_audio env) (stop_remaining env)).1 := by
      cases hA : env.stopActors "Audio" <;> simp [andThen, stop_audio, hA]
    have : Ev.logStoppingFrontends ∈ (run env bcs fcs).1 ∧
        Ev.logStoppingCore ∈ (run env bcs fcs).1 ∧
          Ev.logStoppingBackends ∈ (run env bcs fcs).1 ∧
            Ev.logStoppingAudio ∈ (run env bcs fcs).1 := by
      refine ⟨?_, ?_, ?_, ?_⟩ <;> simp [run, hfin1, haud]
    exact this
  · intro hq
    obtain ⟨e, he⟩ := Option.ne_none_iff_exists'.mp hq
    have hfin := fin_truncated_at_quit env fcs bcs he
    refine ⟨?_, ?_, ?_, ?_, ?_⟩ <;>
      · refine notMem_run_of_notMem_finally env bcs fcs _ rfl (by simp) (by simp) ?_
        rw [hfin]
        simp
  · intro hex
    obtain ⟨e, he⟩ := Option.ne_none_iff_exists'.mp (stopClassesLoop_fails env fcs hex)
    refine ⟨?_, ?_, ?_, ?_⟩ <;>
      · exact notMem_run_of_notMem_finally env bcs fcs _ rfl (by simp) (by simp)
          (fin_notMem_frontends_fail env fcs bcs he _ (by simp) (by simp)
            (by intro x; simp))
  · intro hc
    obtain ⟨e, he⟩ := Option.ne_none_iff_exists'.mp hc
    refine ⟨?_, ?_, ?_⟩ <;>
      · exact notMem_run_of_notMem_finally env bcs fcs _ rfl (by simp) (by simp)
          (fin_notMem_core_fail env fcs bcs he _ (by simp) (by simp)
            (by intro x; simp) (by simp))
  · intro hex
    obtain ⟨e, he⟩ := Option.ne_none_iff_exists'.mp (stopClassesLoop_fails env bcs hex)
    refine ⟨?_, ?_⟩ <;>
      · exact notMem_run_of_notMem_finally env bcs fcs _ rfl (by simp) (by simp)
          (fin_notMem_backends_fail env fcs bcs he _ (by simp) (by simp)
            (by intro x; simp) (by simp) (by simp))
  · intro ha
    obtain ⟨e, he⟩ := Option.ne_none_iff_exists'.mp ha
    exact notMem_run_of_notMem_finally env bcs fcs _ rfl (by simp) (by simp)
      (fin_notMem_audio_fail env fcs bcs he _ (by simp) (by simp)
        (by intro x; simp) (by simp) (by simp) (by simp))

/-- Witness for the amended C3: part (a) at an environment where every stop
succeeds even though backend `"B2"` failed to start, and the
frontend-stop-failure part at the environment where stopping frontend class
`"F1"` raises. -/
theorem stop_steps_sequential_no_protection_witness :
    (Ev.logStoppingFrontends ∈ (run envBackendFail ["B1", "B2"] ["F1"]).1 ∧
        Ev.logStoppingCore ∈ (run envBackendFail ["B1", "B2"] ["F1"]).1 ∧
          Ev.logStoppingBackends ∈ (run envBackendFail ["B1", "B2"] ["F1"]).1 ∧
            Ev.logStoppingAudio ∈ (run envBackendFail ["B1", "B2"] ["F1"]).1) ∧
      Ev.logStoppingCore ∉ (run envStopFrontendRaises ["B1"] ["F1"]).1 :=
  ⟨(stop_steps_sequential_no_protection envBackendFail ["B1", "B2"] ["F1"]).1
      rfl (fun _ _ => rfl) rfl (fun _ _ => rfl),
    ((stop_steps_sequential_no_protection envStopFrontendRaises ["B1"] ["F1"]).2.2.1
      ⟨"F1", by decide, by decide⟩).1⟩

/-! ## Parser-side helper lemmas -/

theorem splitOnce_not_mem (c : Char) :
    ∀ l : List Char, c ∉ l → splitOnce c l = none
  | [], _ => rfl
  | x :: xs, h => by
    have hx : ¬(x = c) := fun he => h (he ▸ List.mem_cons_self x xs)
    simp [splitOnce, hx,
      splitOnce_not_mem c xs (fun hm => h (List.mem_cons_of_mem _ hm))]

theorem splitOnce_first (c : Char) (b : List Char) :
    ∀ a : List Char, c ∉ a → splitOnce c (a ++ c :: b) = some (a, b)
  | [], _ => by simp [splitOnce]
  | x :: xs, h => by
    have hx : ¬(x = c) := fun he => h (he ▸ List.mem_cons_self x xs)
    simp [splitOnce, hx,
      splitOnce_first c b xs (fun hm => h (List.mem_cons_of_mem _ hm))]

theorem config_override_type_error (s : String)
    (h : splitOnce '/' s.data = none ∨
      ∃ sr : List Char × List Char, splitOnce '/' s.data = some sr ∧
        splitOnce '=' sr.2 = none) :
    config_override_type s = .error (s ++ " must have the format section/key=value") := by
  rcases h with h | ⟨⟨a, b⟩, h1, h2⟩
  · simp [config_override_type, h]
  · simp [config_override_type, h1, h2]

theorem str_ne_empty (s : String) (h : s.data.length ≠ 0) : s ≠ "" :=
  fun he => h (by rw [he]; rfl)

theorem append_ne_empty_right (a b : String) (hb : b ≠ "") : a ++ b ≠ "" := by
  intro he
  apply hb
  have hd := congrArg String.data he
  rw [String.data_append] at hd
  have h0 : ("" : String).data = [] := rfl
  rw [h0] at hd
  exact String.ext (List.append_eq_nil.mp hd).2

theorem append_ne_empty_left (a b : String) (ha : a ≠ "") : a ++ b ≠ "" := by
  intro he
  apply ha
  have hd := congrArg String.data he
  rw [String.data_append] at hd
  have h0 : ("" : String).data = [] := rfl
  rw [h0] at hd
  exact String.ext (List.append_eq_nil.mp hd).1

theorem usageText_ne_empty (a : List ArgSpec) (p : String) : usageText a p ≠ "" := by
  unfold usageText
  exact append_ne_empty_right _ _ (by decide)

theorem exitOutput_both (u m : String) (hu : u ≠ "") (hm : m ≠ "") :
    exitOutput (some u) (some m) = u ++ "\n\n" ++ m := by
  simp [exitOutput, joinNonEmpty, hu, hm]

theorem parseLoop_root_option_error (dc ver s m : String) (ns : PyNamespace)
    (hconv : applyConv (some .configOverrideConv) s = .error m) :
    parseLoop (rootArguments dc ver) ["-o", s] ns [] =
      .fail ("argument -o/--option: " ++ m) := by
  simp only [parseLoop, findFlag, rootArguments, hconv, joinFlags]
  norm_num [List.find?]
  rfl

/-- C8: the `-o` / `--option` converter splits on the first `/` and the first
`=` after it and strips whitespace from the three parts; an input missing
the `/`, or missing a `=` after the first `/`, makes the converter — and
hence the whole argument parse of `-o <input>` — fail with a message naming
that input. -/
theorem config_override_type_contract :
    (∀ sec key v : String, '/' ∉ sec.data → '=' ∉ key.data →
      config_override_type (sec ++ "/" ++ key ++ "=" ++ v) =
        .ok (sec.trim, key.trim, v.trim)) ∧
    (∀ s : String,
      ('/' ∉ s.data ∨
        ∃ sr : List Char × List Char, splitOnce '/' s.data = some sr ∧ '=' ∉ sr.2) →
      config_override_type s = .error (s ++ " must have the format section/key=value")) ∧
    (∀ s dc ver prog : String,
      ('/' ∉ s.data ∨
        ∃ sr : List Char × List Char, splitOnce '/' s.data = some sr ∧ '=' ∉ sr.2) →
      (rootCommandNode dc ver).parse ["-o", s] prog =
        .exit 1 (usageText (rootArguments dc ver) prog ++ "\n\n" ++
          ("argument -o/--option: " ++ (s ++ " must have the format section/key=value")))) := by
  have herrCond : ∀ s : String,
      ('/' ∉ s.data ∨
        ∃ sr : List Char × List Char, splitOnce '/' s.data = some sr ∧ '=' ∉ sr.2) →
      config_override_type s = .error (s ++ " must have the format section/key=value") := by
    intro s h
    apply config_override_type_error
    rcases h with h | ⟨sr, h1, h2⟩
    · exact Or.inl (splitOnce_not_mem '/' s.data h)
    · exact Or.inr ⟨sr, h1, splitOnce_not_mem '=' sr.2 h2⟩
  refine ⟨?_, herrCond, ?_⟩
  · intro sec key v hsec hkey
    have hdata : (sec ++ "/" ++ key ++ "=" ++ v).data =
        sec.data ++ '/' :: (key.data ++ '=' :: v.data) := by
      simp [String.data_append]
    have h1 : splitOnce '/' (sec.data ++ '/' :: (key.data ++ '=' :: v.data)) =
        some (sec.data, key.data ++ '=' :: v.data) :=
      splitOnce_first '/' _ sec.data hsec
    have h2 : splitOnce '=' (key.data ++ '=' :: v.data) = some (key.data, v.data) :=
      splitOnce_first '=' _ key.data hkey
    simp [config_override_type, hdata, h1, h2]
  · intro s dc ver prog h
    have herr := herrCond s h
    have hconv : applyConv (some .configOverrideConv) s =
        .error (s ++ " must have the format section/key=value") := by
      simp [applyConv, herr]
    have hfail : parse_args (rootArguments dc ver) ["-o", s] [] =
        .fail ("argument -o/--option: " ++
          (s ++ " must have the format section/key=value")) := by
      rw [parse_args]
      rw [parseLoop_root_option_error dc ver s _ _ hconv]
    have hmsg : ("argument -o/--option: " ++
        (s ++ " must have the format section/key=value")) ≠ "" :=
      append_ne_empty_left _ _ (by decide)
    simp [Command.parse, rootCommandNode, Command._parse, hfail,
      exitOutput_both _ _ (usageText_ne_empty (rootArguments dc ver) prog) hmsg]

/-- Witness for C8: `playback/volume=80` converts to the stripped triple and
`badformat` (no `/`) makes `mopidy -o badformat` exit 1 with a message
naming it. -/
theorem config_override_type_contract_witness :
    config_override_type ("playback" ++ "/" ++ "volume" ++ "=" ++ "80") =
        .ok ("playback".trim, "volume".trim, "80".trim) ∧
      (rootCommandNode "def.conf" "1.0").parse ["-o", "badformat"] "mopidy" =
        .exit 1 (usageText (rootArguments "def.conf" "1.0") "mopidy" ++ "\n\n" ++
          ("argument -o/--option: " ++
            ("badformat" ++ " must have the format section/key=value"))) :=
  ⟨config_override_type_contract.1 "playback" "volume" "80" (by decide) (by decide),
    config_override_type_contract.2.2 "badformat" "def.conf" "1.0" "mopidy"
      (Or.inl (by decide))⟩

theorem strAppend_assoc (a b c : String) : a ++ b ++ c = a ++ (b ++ c) :=
  String.ext (by simp [String.data_append])

theorem strContains_here (t a b : String) : strContains (a ++ t ++ b) t := ⟨a, b, rfl⟩

theorem strContains_left {a t : String} (h : strContains a t) (b : String) :
    strContains (a ++ b) t := by
  obtain ⟨p, q, rfl⟩ := h
  exact ⟨p, q ++ b, by rw [strAppend_assoc (p ++ t) q b]⟩

theorem strContains_right {b t : String} (h : strContains b t) (a : String) :
    strContains (a ++ b) t := by
  obtain ⟨p, q, rfl⟩ := h
  refine ⟨a ++ p, q, String.ext ?_⟩
  simp [String.data_append]

theorem strContains_refl (t : String) : strContains t t :=
  ⟨"", "", by refine String.ext ?_; simp [String.data_append]⟩

theorem joinLines_contains {s : String} :
    ∀ l : List String, s ∈ l → strContains (joinLines l) s
  | [], h => by simp at h
  | [x], h => by
    simp at h
    subst h
    exact strContains_refl s
  | x :: y :: rest, h => by
    rcases List.mem_cons.mp h with rfl | hmem
    · exact strContains_left (strContains_left (strContains_refl s) "\n") (joinLines (y :: rest))
    · have ih := joinLines_contains (y :: rest) hmem
      exact strContains_right ih (x ++ "\n")

/-- Walking `self._children` for a token registered under no child gives the
`unrecognized command` exit. -/
theorem dispatchChild_none (child : String) (argv : List String) (ns : PyNamespace)
    (ov : List (String × Value)) (prog usage : String) :
    ∀ cl : ChildList, childLookup cl child = none →
      dispatchChild cl child argv ns ov prog usage =
        .exit 1 (exitOutput (some usage) (some ("unrecognized command: " ++ child)))
  | .nil, _ => rfl
  | .cons n c rest, h => by
    have hn : ¬(n = child) := by
      intro he
      simp [childLookup, he] at h
    have hrest : childLookup rest child = none := by
      simpa [childLookup, hn] using h
    simp [dispatchChild, hn, dispatchChild_none child argv ns ov prog usage rest hrest]

/-- C6: whenever the current node's flag parse succeeds with a nonempty
remainder whose first token is registered under no child, `_parse` — whose
value is what dispatch returns — exits with status 1, printing the current
node's usage line and the message `unrecognized command: <token>`. -/
theorem unrecognized_command_exits_one (cmd : Command) (argv : List String)
    (ns nsMid : PyNamespace) (ov : List (String × Value)) (prog t : String)
    (rest : List String)
    (hp : parse_args cmd.arguments argv ns = .ok nsMid (t :: rest))
    (hc : childLookup cmd.children t = none) :
    cmd._parse argv ns ov prog =
      .exit 1 (usageText cmd.arguments prog ++ "\n\n" ++ ("unrecognized command: " ++ t)) ∧
      strContains (usageText cmd.arguments prog ++ "\n\n" ++ ("unrecognized command: " ++ t))
        t := by
  cases cmd with
  | mk h args children ovr =>
    simp only [Command.arguments] at hp ⊢
    simp only [Command.children] at hc
    constructor
    · simp only [Command._parse, hp]
      rw [dispatchChild_none t rest nsMid (nsUpdateAll ov ovr) prog (usageText args prog)
        children hc]
      rw [exitOutput_both _ _ (usageText_ne_empty args prog)
        (append_ne_empty_left _ _ (by decide))]
    · have h1 : strContains ("unrecognized command: " ++ t) t := by
        have := strContains_here t "unrecognized command: " ""
        simpa [String.ext_iff, String.data_append] using this
      exact strContains_right h1 _

/-- Witness for C6: the fixture tree has no child `bogus`. -/
theorem unrecognized_command_exits_one_witness :
    rootFixture._parse ["bogus"] [] [] "prog" =
      .exit 1 (usageText rootFixture.arguments "prog" ++ "\n\n" ++
        ("unrecognized command: " ++ "bogus")) ∧
      strContains (usageText rootFixture.arguments "prog" ++ "\n\n" ++
        ("unrecognized command: " ++ "bogus")) "bogus" :=
  unrecognized_command_exits_one rootFixture ["bogus"] [] [] [] "prog" "bogus" []
    (by rfl) (by rfl)

theorem strContains_head (t b : String) : strContains (t ++ b) t :=
  ⟨"", b, String.ext (by simp [String.data_append])⟩

theorem strContains_trans {s t u : String} (h1 : strContains s t) (h2 : strContains t u) :
    strContains s u := by
  obtain ⟨p, q, rfl⟩ := h1
  obtain ⟨a, b, rfl⟩ := h2
  exact ⟨p ++ a, b ++ q, String.ext (by simp [String.data_append])⟩

mutual
theorem subhelp_eq : ∀ (cmd : Command) (name : String),
    cmd._subhelp name =
      (((name, cmd) :: allDescendants cmd name).filter (fun pc => qualifies pc.2)).map
        (fun pc => subhelpBlock pc.1 pc.2.helpText pc.2.arguments)
  | .mk h args children ovr, name => by
    have hl := subhelpList_eq children name
    by_cases hq : (helpTruthy h || !args.isEmpty) = true
    · simp [Command._subhelp, allDescendants, qualifies, hq, hl,
        Command.helpText, Command.arguments]
    · simp [Command._subhelp, allDescendants, qualifies, hq, hl]
theorem subhelpList_eq : ∀ (cl : ChildList) (name : String),
    subhelpList cl name =
      ((allDescendantsList cl name).filter (fun pc => qualifies pc.2)).map
        (fun pc => subhelpBlock pc.1 pc.2.helpText pc.2.arguments)
  | .nil, _ => rfl
  | .cons n c rest, name => by
    have h1 := subhelp_eq c (name ++ " " ++ n)
    have h2 := subhelpList_eq rest name
    by_cases hq : qualifies c = true
    · simp [subhelpList, allDescendantsList, h1, h2, List.filter_cons, hq,
        List.filter_append]
    · simp [subhelpList, allDescendantsList, h1, h2, List.filter_cons, hq,
        List.filter_append]
end

theorem subhelpTop_eq : ∀ cl : ChildList, subhelpTop cl = specCommandBlocks cl
  | .nil => rfl
  | .cons n c rest => by
    have h1 := subhelp_eq c n
    have h2 := subhelpTop_eq rest
    by_cases hq : qualifies c = true
    · simp [subhelpTop, specCommandBlocks, allDescendantsTop, h1, h2, List.filter_cons,
        hq, List.filter_append]
    · simp [subhelpTop, specCommandBlocks, allDescendantsTop, h1, h2, List.filter_cons,
        hq, List.filter_append]

/-- C9: `format_help` renders the header for the node itself, then the
COMMANDS block: exactly the blocks obtained by filtering the pre-order,
insertion-ordered enumeration of all descendants down to those with help
summary text or at least one own argument, each rendered under its full
space-joined path from the starting node; non-qualifying nodes contribute no
block but their descendants are still enumerated. -/
theorem format_help_commands_pre_order (cmd : Command) (prog : String) :
    cmd.format_help prog =
      headerText cmd.helpText cmd.arguments prog
          (!(specCommandBlocks cmd.children).isEmpty) ++
        joinLines (if (specCommandBlocks cmd.children).isEmpty then []
          else "" :: specCommandBlocks cmd.children) := by
  cases cmd with
  | mk h args children ovr =>
    simp [Command.format_help, Command.helpText, Command.arguments, Command.children,
      subhelpTop_eq children]

theorem subhelpBlock_contains_name (name : String) (hd : Option String)
    (args : List ArgSpec) : strContains (subhelpBlock name hd args) name := by
  unfold subhelpBlock
  exact strContains_left (strContains_left (strContains_left
    (strContains_left (strContains_head name _) _) _) _) _

/-- C4 counterexample: with the help flag consumed at depth 1 (`sub -h`),
dispatch exits 0 but prints the help text of the ROOT (the node `parse` was
invoked on), which differs from the full recursive help text of the current
node `sub` — `Command.parse` catches the propagating `_HelpError` and prints
`self.format_help`, `self` being the root. -/
theorem help_at_depth_prints_invoking_nodes_help :
    rootFixture.parse ["sub", "-h"] "prog" = .exit 0 (rootFixture.format_help "prog") ∧
      rootFixture.format_help "prog" ≠ subCommand.format_help "prog sub" := by
  refine ⟨rfl, ?_⟩
  decide

/-- C4 (amended): a `show-help` action triggered at any node depth during
dispatch makes dispatch exit with status 0 after printing the full recursive
help text of the node dispatch was invoked on (the root) — not, in general,
of the node whose parser consumed the flag — and that output contains the
root's own help summary (when set) and the path name of every qualifying
descendant. -/
theorem help_exits_zero_with_invoked_nodes_help (cmd : Command) (argv : List String)
    (prog : String)
    (h : cmd._parse argv [] (nsUpdateAll [] cmd.overrides) prog = .helpExit) :
    cmd.parse argv prog = .exit 0 (cmd.format_help prog) ∧
      (helpTruthy cmd.helpText = true →
        strContains (cmd.format_help prog) (cmd.helpText.getD "")) ∧
      (∀ pc ∈ allDescendantsTop cmd.children, qualifies pc.2 = true →
        strContains (cmd.format_help prog) pc.1) := by
  refine ⟨by simp [Command.parse, h], ?_, ?_⟩
  · intro ht
    cases cmd with
    | mk hh args children ovr =>
      simp only [Command.helpText] at ht ⊢
      simp only [Command.format_help, headerText, ht, if_true]
      exact strContains_left (strContains_left (strContains_left
        (strContains_right (strContains_head _ _) _) _) _) _
  · intro pc hmem hq
    cases cmd with
    | mk hh args children ovr =>
      simp only [Command.children] at hmem
      have hblock : subhelpBlock pc.1 pc.2.helpText pc.2.arguments ∈
          specCommandBlocks children := by
        simp only [specCommandBlocks]
        exact List.mem_map_of_mem _ (List.mem_filter.mpr ⟨hmem, hq⟩)
      have hne : (subhelpTop children).isEmpty = false := by
        rw [subhelpTop_eq children]
        rcases he : (specCommandBlocks children).isEmpty with _ | _
        · rfl
        · rw [List.isEmpty_iff] at he
          rw [he] at hblock
          simp at hblock
      have hjl : strContains (joinLines ("" :: subhelpTop children))
          (subhelpBlock pc.1 pc.2.helpText pc.2.arguments) := by
        apply joinLines_contains
        apply List.mem_cons_of_mem
        rw [subhelpTop_eq children]
        exact hblock
      have hout : strContains (Command.format_help (.mk hh args children ovr) prog)
          (subhelpBlock pc.1 pc.2.helpText pc.2.arguments) := by
        simp only [Command.format_help, hne, Bool.not_false, if_false]
        exact strContains_right hjl _
      exact strContains_trans hout (subhelpBlock_contains_name pc.1 _ _)

/-- Witness for the amended C4, at the fixture tree with the help flag
consumed by the child `sub`. -/
theorem help_exits_zero_with_invoked_nodes_help_witness :
    rootFixture.parse ["sub", "-h"] "prog" =
        .exit 0 (rootFixture.format_help "prog") ∧
      (helpTruthy rootFixture.helpText = true →
        strContains (rootFixture.format_help "prog") (rootFixture.helpText.getD "")) ∧
      (∀ pc ∈ allDescendantsTop rootFixture.children, qualifies pc.2 = true →
        strContains (rootFixture.format_help "prog") pc.1) :=
  help_exits_zero_with_invoked_nodes_help rootFixture ["sub", "-h"] "prog" (by rfl)

/-- C10: `-q` stores the constant `-1` and `-v` increments the current value
of the shared destination `verbosity_level`, so the parsed verbosity is
order-dependent: `['-q', '-v']` yields `0` while `['-v', '-q']` yields `-1`. -/
theorem quiet_verbose_order_dependent (dc ver prog : String) :
    parsedValue ((rootCommandNode dc ver).parse ["-q", "-v"] prog) "verbosity_level" =
        some (.vInt 0) ∧
      parsedValue ((rootCommandNode dc ver).parse ["-v", "-q"] prog) "verbosity_level" =
        some (.vInt (-1)) := by
  exact ⟨rfl, rfl⟩

/-! ## Namespace/override-dict lookup lemmas (for C2) -/

theorem nsGet_nsSet : ∀ (ns : PyNamespace) (k : String) (v : Value) (q : String),
    nsGet (nsSet ns k v) q = if q = k then some v else nsGet ns q
  | [], k, v, q => by
    by_cases h : q = k
    · simp [nsSet, nsGet, h]
    · have h' : ¬(k = q) := fun he => h he.symm
      simp [nsSet, nsGet, h, h']
  | (k0, v0) :: rest, k, v, q => by
    by_cases h0 : k0 = k
    · subst h0
      by_cases hq : q = k0
      · simp [nsSet, nsGet, hq]
      · have hq' : ¬(k0 = q) := fun he => hq he.symm
        simp [nsSet, nsGet, hq, hq']
    · by_cases hq : k0 = q
      · have : ¬(q = k) := fun he => h0 (hq.trans he)
        simp [nsSet, nsGet, h0, hq, this]
      · simp [nsSet, nsGet, h0, hq, nsGet_nsSet rest k v q]

theorem nsUpdateAll_cons (base : PyNamespace) (k : String) (v : Value)
    (es : List (String × Value)) :
    nsUpdateAll base ((k, v) :: es) = nsUpdateAll (nsSet base k v) es := rfl

theorem nsGet_nsUpdateAll : ∀ (es : List (String × Value)) (base : PyNamespace) (q : String),
    nsGet (nsUpdateAll base es) q = nsOr (nsGet (nsUpdateAll [] es) q) (nsGet base q)
  | [], base, q => by simp [nsUpdateAll, nsGet, nsOr]
  | (k, v) :: es, base, q => by
    rw [nsUpdateAll_cons, nsUpdateAll_cons]
    rw [nsGet_nsUpdateAll es (nsSet base k v) q, nsGet_nsUpdateAll es (nsSet [] k v) q]
    cases hmid : nsGet (nsUpdateAll [] es) q with
    | some w => simp [nsOr]
    | none =>
      by_cases hq : q = k
      · simp [nsOr, nsGet_nsSet, nsGet, hq]
      · have hq' : ¬(k = q) := fun he => hq he.symm
        simp [nsOr, nsGet_nsSet, nsGet, hq, hq']

theorem nsGet_mergeFold :
    ∀ (ovs : List (List (String × Value))) (base : PyNamespace) (q : String),
      nsGet (ovs.foldl nsUpdateAll base) q =
        nsOr (nsGet (ovs.foldl nsUpdateAll []) q) (nsGet base q)
  | [], base, q => by simp [nsGet, nsOr]
  | l :: ls, base, q => by
    rw [List.foldl_cons, List.foldl_cons]
    rw [nsGet_mergeFold ls (nsUpdateAll base l) q, nsGet_mergeFold ls (nsUpdateAll [] l) q]
    cases hmid : nsGet (ls.foldl nsUpdateAll []) q with
    | some w => simp [nsOr]
    | none => simp [nsOr, nsGet_nsUpdateAll l base q]

theorem nsGet_eq_none : ∀ (ns : PyNamespace) (q : String),
    q ∉ ns.map Prod.fst → nsGet ns q = none
  | [], _, _ => rfl
  | (k, v) :: rest, q, h => by
    have hk : ¬(k = q) := by
      intro he
      exact h (by simp [he])
    have hrest : q ∉ rest.map Prod.fst := fun hm => h (by simp [hm])
    simp [nsGet, hk, nsGet_eq_none rest q hrest]

theorem mem_keys_nsSet : ∀ (ns : PyNamespace) (k : String) (v : Value) (q : String),
    q ∈ (nsSet ns k v).map Prod.fst → q = k ∨ q ∈ ns.map Prod.fst
  | [], k, v, q, h => by
    simp only [nsSet, List.map_cons, List.map_nil] at h
    rcases List.mem_cons.mp h with he | hnil
    · exact Or.inl he
    · exact absurd hnil (List.not_mem_nil q)
  | (k0, v0) :: rest, k, v, q, h => by
    by_cases h0 : k0 = k
    · simp only [nsSet, h0, if_true, List.map_cons] at h
      rcases List.mem_cons.mp h with he | hm
      · exact Or.inl he
      · exact Or.inr (by rw [List.map_cons]; exact List.mem_cons_of_mem _ hm)
    · simp only [nsSet, h0, if_false, List.map_cons] at h
      rcases List.mem_cons.mp h with he | hm
      · exact Or.inr (by rw [List.map_cons]; exact he ▸ List.mem_cons_self _ _)
      · rcases mem_keys_nsSet rest k v q hm with he | hm2
        · exact Or.inl he
        · exact Or.inr (by rw [List.map_cons]; exact List.mem_cons_of_mem _ hm2)

theorem keysNodup_nsSet : ∀ (ns : PyNamespace) (k : String) (v : Value),
    (ns.map Prod.fst).Nodup → ((nsSet ns k v).map Prod.fst).Nodup
  | [], k, v, _ => by simp [nsSet]
  | (k0, v0) :: rest, k, v, h => by
    rw [List.map_cons, List.nodup_cons] at h
    by_cases h0 : k0 = k
    · simp only [nsSet, h0, if_true, List.map_cons, List.nodup_cons]
      exact ⟨h0 ▸ h.1, h.2⟩
    · simp only [nsSet, h0, if_false, List.map_cons, List.nodup_cons]
      refine ⟨?_, keysNodup_nsSet rest k v h.2⟩
      intro hmem
      rcases mem_keys_nsSet rest k v k0 hmem with he | hm
      · exact h0 he
      · exact h.1 hm

theorem keysNodup_nsUpdateAll : ∀ (es : List (String × Value)) (base : PyNamespace),
    (base.map Prod.fst).Nodup → ((nsUpdateAll base es).map Prod.fst).Nodup
  | [], base, h => h
  | (k, v) :: es, base, h => by
    rw [nsUpdateAll_cons]
    exact keysNodup_nsUpdateAll es (nsSet base k v) (keysNodup_nsSet base k v h)

theorem keysNodup_mergeFold :
    ∀ (ovs : List (List (String × Value))) (base : PyNamespace),
      (base.map Prod.fst).Nodup → ((ovs.foldl nsUpdateAll base).map Prod.fst).Nodup
  | [], base, h => h
  | l :: ls, base, h => by
    rw [List.foldl_cons]
    exact keysNodup_mergeFold ls (nsUpdateAll base l) (keysNodup_nsUpdateAll l base h)

theorem nsGet_nsUpdateAll_self : ∀ (M : PyNamespace), (M.map Prod.fst).Nodup →
    ∀ q : String, nsGet (nsUpdateAll [] M) q = nsGet M q
  | [], _, q => rfl
  | (k, v) :: rest, h, q => by
    rw [List.map_cons, List.nodup_cons] at h
    rw [nsUpdateAll_cons, nsGet_nsUpdateAll rest (nsSet [] k v) q,
      nsGet_nsUpdateAll_self rest h.2 q]
    by_cases hq : k = q
    · subst hq
      have hnone : nsGet rest k = none := nsGet_eq_none rest k h.1
      simp [hnone, nsOr, nsGet_nsSet, nsGet]
    · cases hr : nsGet rest q with
      | some w => simp [nsOr, nsGet, hq, hr]
      | none =>
        have : ¬(q = k) := fun he => hq he.symm
        simp [nsOr, nsGet_nsSet, nsGet, hq, this, hr]

/-! ## Route correspondence (for C2) -/

mutual
theorem parse_parsed_route :
    ∀ (cmd : Command) (argv : List String) (ns : PyNamespace)
      (ov : List (String × Value)) (prog : String) (nsF : PyNamespace) (c : Command),
      cmd._parse argv ns ov prog = .parsed nsF c →
      ∃ ovs raw, routeOverrides cmd argv ns = some (ovs, raw) ∧
        nsF = nsUpdateAll raw (ovs.foldl nsUpdateAll ov)
  | .mk h args children ovr, argv, ns, ov, prog, nsF, c => by
    intro hp
    simp only [Command._parse] at hp
    cases hpa : parse_args args argv ns with
    | fail m => rw [hpa] at hp; cases hp
    | helpRequested => rw [hpa] at hp; cases hp
    | versionRequested v => rw [hpa] at hp; cases hp
    | ok ns' rem =>
      rw [hpa] at hp
      cases rem with
      | nil =>
        refine ⟨[ovr], ns', by simp [routeOverrides, hpa], ?_⟩
        cases hp
        rfl
      | cons child rest =>
        obtain ⟨ovs, raw, h1, h2⟩ :=
          dispatch_parsed_route children child rest ns' (nsUpdateAll ov ovr) prog
            (usageText args prog) nsF c hp
        exact ⟨ovr :: ovs, raw, by simp [routeOverrides, hpa, h1], h2⟩
theorem dispatch_parsed_route :
    ∀ (cl : ChildList) (child : String) (argv : List String) (ns : PyNamespace)
      (ov : List (String × Value)) (prog usage : String) (nsF : PyNamespace) (c : Command),
      dispatchChild cl child argv ns ov prog usage = .parsed nsF c →
      ∃ ovs raw, routeChild cl child argv ns = some (ovs, raw) ∧
        nsF = nsUpdateAll raw (ovs.foldl nsUpdateAll ov)
  | .nil, child, argv, ns, ov, prog, usage, nsF, c => by
    intro hp
    simp [dispatchChild] at hp
  | .cons n c0 rest, child, argv, ns, ov, prog, usage, nsF, c => by
    intro hp
    by_cases hn : n = child
    · rw [dispatchChild, if_pos hn] at hp
      obtain ⟨ovs, raw, h1, h2⟩ :=
        parse_parsed_route c0 argv ns ov (prog ++ " " ++ child) nsF c hp
      exact ⟨ovs, raw, by simp [routeChild, hn, h1], h2⟩
    · rw [dispatchChild, if_neg hn] at hp
      obtain ⟨ovs, raw, h1, h2⟩ :=
        dispatch_parsed_route rest child argv ns ov prog usage nsF c hp
      exact ⟨ovs, raw, by simp [routeChild, hn, h1], h2⟩
end

theorem routeOverrides_head (cmd : Command) (argv : List String) (ns : PyNamespace)
    (ovs : List (List (String × Value))) (raw : PyNamespace)
    (h : routeOverrides cmd argv ns = some (ovs, raw)) :
    ∃ tail, ovs = cmd.overrides :: tail := by
  cases cmd with
  | mk hh args children ovr =>
    simp only [routeOverrides, Command.overrides] at h ⊢
    cases hpa : parse_args args argv ns with
    | fail m => rw [hpa] at h; cases h
    | helpRequested => rw [hpa] at h; cases h
    | versionRequested v => rw [hpa] at h; cases h
    | ok ns' rem =>
      rw [hpa] at h
      cases rem with
      | nil =>
        have h' : some ([ovr], ns') = some (ovs, raw) := h
        cases h'
        exact ⟨[], rfl⟩
      | cons child rest =>
        have h' : (match routeChild children child rest ns' with
            | some pr => some (ovr :: pr.1, pr.2)
            | none => none) = some (ovs, raw) := h
        cases hrc : routeChild children child rest ns' with
        | none => rw [hrc] at h'; cases h'
        | some pr =>
          rw [hrc] at h'
          cases h'
          exact ⟨pr.1, rfl⟩

/-- C2: whenever dispatch resolves to a terminal node, the route's override
tables are merged from root to leaf by a left fold (later, more specific
levels overwriting earlier ones on key collisions), and the merged table is
written into the result only after all flag parsing at every level, so for
every destination key in the merged overrides the override value is the
final value, replacing anything a user-supplied flag stored there. -/
theorem overrides_merged_root_to_leaf_and_win (cmd : Command) (argv : List String)
    (prog : String) (nsF : PyNamespace) (c : Command)
    (h : cmd.parse argv prog = .parsed nsF c) :
    ∃ ovs raw, routeOverrides cmd argv [] = some (ovs, raw) ∧
      (∀ q, nsGet nsF q = nsGet (nsUpdateAll raw (ovs.foldl nsUpdateAll [])) q) ∧
      (∀ q v, nsGet (ovs.foldl nsUpdateAll []) q = some v → nsGet nsF q = some v) := by
  have hp : cmd._parse argv [] (nsUpdateAll [] cmd.overrides) prog = .parsed nsF c := by
    unfold Command.parse at h
    cases hr : cmd._parse argv [] (nsUpdateAll [] cmd.overrides) prog with
    | parsed nsr cr => rw [hr] at h; cases h; rfl
    | exit s o => rw [hr] at h; cases h
    | helpExit => rw [hr] at h; cases h
  obtain ⟨ovs, raw, hroute, hns⟩ :=
    parse_parsed_route cmd argv [] (nsUpdateAll [] cmd.overrides) prog nsF c hp
  obtain ⟨tail, htail⟩ := routeOverrides_head cmd argv [] ovs raw hroute
  have hnd1 : ((ovs.foldl nsUpdateAll (nsUpdateAll [] cmd.overrides)).map Prod.fst).Nodup :=
    keysNodup_mergeFold ovs _ (keysNodup_nsUpdateAll cmd.overrides [] (by simp))
  have hnd2 : ((ovs.foldl nsUpdateAll []).map Prod.fst).Nodup :=
    keysNodup_mergeFold ovs [] (by simp)
  have hM : ∀ q, nsGet (ovs.foldl nsUpdateAll (nsUpdateAll [] cmd.overrides)) q =
      nsGet (ovs.foldl nsUpdateAll []) q := by
    intro q
    rw [nsGet_mergeFold ovs (nsUpdateAll [] cmd.overrides) q]
    cases hm2 : nsGet (ovs.foldl nsUpdateAll []) q with
    | some w => simp [nsOr]
    | none =>
      rw [htail] at hm2
      rw [List.foldl_cons, nsGet_mergeFold tail (nsUpdateAll [] cmd.overrides) q] at hm2
      cases h3 : nsGet (tail.foldl nsUpdateAll []) q with
      | some w => rw [h3] at hm2; cases hm2
      | none =>
        rw [h3] at hm2
        simpa [nsOr] using hm2
  have hii : ∀ q, nsGet nsF q = nsGet (nsUpdateAll raw (ovs.foldl nsUpdateAll [])) q := by
    intro q
    rw [hns]
    rw [nsGet_nsUpdateAll (ovs.foldl nsUpdateAll (nsUpdateAll [] cmd.overrides)) raw q,
      nsGet_nsUpdateAll (ovs.foldl nsUpdateAll []) raw q]
    rw [nsGet_nsUpdateAll_self _ hnd1 q, nsGet_nsUpdateAll_self _ hnd2 q]
    rw [hM q]
  refine ⟨ovs, raw, hroute, hii, ?_⟩
  intro q v hv
  rw [hii q, nsGet_nsUpdateAll (ovs.foldl nsUpdateAll []) raw q,
    nsGet_nsUpdateAll_self _ hnd2 q, hv]
  rfl

/-- Witness for C2, at a two-level tree with colliding override keys
(root sets `x := 1`, child `sub` sets `x := 2`; the child wins). -/
theorem overrides_merged_root_to_leaf_and_win_witness :
    ∃ ovs raw, routeOverrides rootFixture ["sub"] [] = some (ovs, raw) ∧
      (∀ q, nsGet (resultNamespaceD (rootFixture.parse ["sub"] "prog")) q =
        nsGet (nsUpdateAll raw (ovs.foldl nsUpdateAll [])) q) ∧
      (∀ q v, nsGet (ovs.foldl nsUpdateAll []) q = some v →
        nsGet (resultNamespaceD (rootFixture.parse ["sub"] "prog")) q = some v) :=
  overrides_merged_root_to_leaf_and_win rootFixture ["sub"] "prog"
    (resultNamespaceD (rootFixture.parse ["sub"] "prog"))
    (resultCommandD (rootFixture.parse ["sub"] "prog") rootFixture)
    (by rfl)

end Mopidy
